import Mathlib

/-!
Verification of the osv-scanner deps.dev transitive-dependency enrichment
subsystem, shallow-embedded from the Go sources:

* `src/unnamed/part_000` — generic `DepsDevRESTClient` (graph fetch + cache);
* `src/internal/depsdev/depsdev_pypi_client.go` — older PyPI-only client;
* `src/internal/depsdev/depsdev_pypi_enricher.go` — PyPI enricher
  (`Enrich`, `resolveGroup`, grouping and merge loops);
* `src/internal/depsdev/depsdev_maven_enricher.go` — Maven enricher.

Strings are modelled with Lean `String`; Go `strings.ToLower` is modelled
on its ASCII fragment (package names in scope are ASCII).  Go maps are
modelled as association lists with insert-or-replace, iterated in
first-insertion order (one admissible iteration order of a Go map).
The HTTP layer is modelled as an oracle: a function from the request URL
to a transport-level outcome, plus a JSON-decode oracle.
-/

/-- Definition of the versionKey object of a deps.dev graph node
(`DepsDevVersionKey` in the Go source). -/
structure DepsDevVersionKey where
  system : String
  name : String
  version : String
deriving Repr, DecidableEq

/-- Definition of a node of a deps.dev dependency graph (`DepsDevNode`):
a package with a relation tag SELF / DIRECT / INDIRECT. -/
structure DepsDevNode where
  versionKey : DepsDevVersionKey
  bundled : Bool
  relation : String
  errors : List String
deriving Repr, DecidableEq

/-- Definition of an edge of a deps.dev dependency graph (`DepsDevEdge`). -/
structure DepsDevEdge where
  fromNode : Nat
  toNode : Nat
  requirement : String
deriving Repr, DecidableEq

/-- Definition of a deps.dev dependency graph (`DepsDevDependencyGraph`). -/
structure DepsDevDependencyGraph where
  nodes : List DepsDevNode
  edges : List DepsDevEdge
deriving Repr, DecidableEq

/-- Definition of the Maven metadata record attached to resolved Maven
packages (`javalockfile.Metadata` in osv-scalibr). -/
structure JavaLockfileMetadata where
  artifactID : String
  groupID : String
  isTransitive : Bool
deriving Repr, DecidableEq

/-- Definition of an inventory package (`extractor.Package`), restricted to
the fields the enrichment subsystem reads or writes. -/
structure Package where
  name : String
  version : String
  purlType : String
  metadata : Option JavaLockfileMetadata := none
  locations : List String
  plugins : List String
deriving Repr, DecidableEq

/-- The unique name of the PyPI enricher (`PyPIDepsDevEnricherName`). -/
def PyPIDepsDevEnricherName : String := "transitivedependency/requirements/depsdev"

/-- The unique name of the Maven enricher (`MavenDepsDevEnricherName`). -/
def MavenDepsDevEnricherName : String := "transitivedependency/maven/depsdev"

/-- The plugin name of the upstream requirements.txt extractor
(`requirements.Name`, imported from osv-scalibr by the PyPI enricher). -/
def requirementsExtractorName : String := "python/requirements"

/-- The offline pomxml extractor plugin name (`pomxmlExtractorName`). -/
def pomxmlExtractorName : String := "java/pomxml"

/-- The enhanceable pomxml extractor plugin name (`pomxmlEnhanceableName`). -/
def pomxmlEnhanceableName : String := "java/pomxmlenhanceable"

/-- The online pomxmlnet extractor plugin name (`pomxmlNetName`). -/
def pomxmlNetName : String := "java/pomxmlnet"

/-- The PyPI package-URL type (`purl.TypePyPi`). -/
def purlTypePyPi : String := "pypi"

/-- The Maven package-URL type (`purl.TypeMaven`). -/
def purlTypeMaven : String := "maven"

/-- Checks if a plugin name is a Maven pom.xml extractor (`isMavenPlugin`). -/
def isMavenPlugin (name : String) : Bool :=
  name == pomxmlExtractorName || name == pomxmlEnhanceableName || name == pomxmlNetName

/-- Insert-or-replace into an association list keyed by strings; models
assignment `m[k] = v` on a Go map whose iteration is taken in
first-insertion order. -/
def listInsertReplace {β : Type} : List (String × β) → String → β → List (String × β)
  | [], k, v => [(k, v)]
  | (k0, v0) :: rest, k, v =>
    if k0 == k then (k0, v) :: rest else (k0, v0) :: listInsertReplace rest k v

/-- Transport-level outcome of one HTTP GET, as seen by the client:
either a transport failure (connection refused, timeout, cancellation) or
a response with a status code and a body. -/
inductive HTTPResult where
  | netErr (msg : String)
  | response (status : Nat) (body : String)
deriving Repr, DecidableEq

/-- Error taxonomy of a graph fetch: transport failure, non-200 status
(with code and body), or malformed JSON body. -/
inductive FetchError where
  | networkError (msg : String)
  | remoteError (status : Nat) (body : String)
  | decodeError
deriving Repr, DecidableEq

/-- Mutable state of the generic `DepsDevRESTClient`: base URL, system
("pypi" or "maven") and the response cache. -/
structure DepsDevRESTClientState where
  baseURL : String
  system : String
  cache : List (String × DepsDevDependencyGraph)
deriving Repr, DecidableEq

/-- Embedding of `DepsDevRESTClient.GetDependencies` (src/unnamed/part_000):
check the cache under key `system/name@version`; on a miss issue one GET to
the deps.dev URL template; a 200 response whose body decodes is stored in
the cache and returned, every failure is surfaced without touching the
cache.  `decode` models `json.Decode`, `net` the HTTP round trip, `escape`
models `url.PathEscape`. -/
def restGetDependencies (decode : String → Option DepsDevDependencyGraph)
    (net : String → HTTPResult) (escape : String → String)
    (c : DepsDevRESTClientState) (name version : String) :
    Except FetchError DepsDevDependencyGraph × DepsDevRESTClientState :=
  let cacheKey := c.system ++ "/" ++ name ++ "@" ++ version
  match c.cache.lookup cacheKey with
  | some cached => (Except.ok cached, c)
  | none =>
    let reqURL := c.baseURL ++ "/v3/systems/" ++ c.system ++ "/packages/" ++
      escape name ++ "/versions/" ++ escape version ++ ":dependencies"
    match net reqURL with
    | HTTPResult.netErr m => (Except.error (FetchError.networkError m), c)
    | HTTPResult.response status body =>
      if status != 200 then
        (Except.error (FetchError.remoteError status body), c)
      else
        match decode body with
        | none => (Except.error FetchError.decodeError, c)
        | some graph =>
          (Except.ok graph, { c with cache := listInsertReplace c.cache cacheKey graph })

/-- Mutable state of the older PyPI-only client
(`PyPIDepsDevClient` in depsdev_pypi_client.go): base URL and cache. -/
structure PyPIDepsDevClientState where
  baseURL : String
  cache : List (String × DepsDevDependencyGraph)
deriving Repr, DecidableEq

/-- Embedding of `PyPIDepsDevClient.GetDependencies`
(depsdev_pypi_client.go): like the generic client but with cache key
`name@version` and the system fixed to "pypi" in the URL. -/
def pypiClientGetDependencies (decode : String → Option DepsDevDependencyGraph)
    (net : String → HTTPResult) (escape : String → String)
    (c : PyPIDepsDevClientState) (name version : String) :
    Except FetchError DepsDevDependencyGraph × PyPIDepsDevClientState :=
  let cacheKey := name ++ "@" ++ version
  match c.cache.lookup cacheKey with
  | some cached => (Except.ok cached, c)
  | none =>
    let reqURL := c.baseURL ++ "/v3/systems/pypi/packages/" ++
      escape name ++ "/versions/" ++ escape version ++ ":dependencies"
    match net reqURL with
    | HTTPResult.netErr m => (Except.error (FetchError.networkError m), c)
    | HTTPResult.response status body =>
      if status != 200 then
        (Except.error (FetchError.remoteError status body), c)
      else
        match decode body with
        | none => (Except.error FetchError.decodeError, c)
        | some graph =>
          (Except.ok graph, { c with cache := listInsertReplace c.cache cacheKey graph })

/-- ASCII-uppercase test on a character (models the letters the Go
`strings.ToLower` call can change for the ASCII names in scope). -/
def isUpperAscii (c : Char) : Bool := 65 ≤ c.toNat && c.toNat ≤ 90

/-- Lowercase one ASCII character (identity elsewhere); the per-character
action of Go `strings.ToLower` on ASCII input. -/
def lowerChar (c : Char) : Char :=
  if isUpperAscii c then Char.ofNat (c.toNat + 32) else c

/-- Embedding of Go `strings.ToLower` restricted to its ASCII fragment. -/
def goToLower (s : String) : String := ⟨s.data.map lowerChar⟩

/-- Whether a string contains an ASCII uppercase letter. -/
def containsUpperAscii (s : String) : Bool := s.data.any isUpperAscii

/-- Embedding of `strings.Cut(name, ":")` as used by the Maven resolver:
split at the first colon, returning (before, after, found). -/
def cutColonList : List Char → Option (List Char × List Char)
  | [] => none
  | c :: cs =>
    if c = ':' then some ([], cs)
    else (cutColonList cs).map (fun p => (c :: p.1, p.2))

/-- String-level wrapper of `cutColonList`; models
`groupID, artifactID, _ := strings.Cut(name, ":")`. -/
def cutFirstColon (s : String) : String × String × Bool :=
  match cutColonList s.data with
  | some (a, b) => (⟨a⟩, ⟨b⟩, true)
  | none => (s, "", false)

/-- Embedding of `packageWithIndex`: a package together with its index in
the inventory slice. -/
structure PackageWithIndex where
  pkg : Package
  index : Nat
deriving Repr, DecidableEq

/-- A manifest group: the Go `map[string]packageWithIndex` keyed by package
name, as an insert-or-replace association list. -/
abbrev PkgMap := List (String × PackageWithIndex)

/-- The PyPI name normalization of the resolver:
`strings.ToLower(node.VersionKey.Name)` (PyPI is case-insensitive). -/
def pypiNormalizeName (s : String) : String := goToLower s

/-- The Maven name normalization of the resolver: the node name is used
verbatim (Maven names are already in groupId:artifactId format). -/
def mavenNormalizeName (s : String) : String := s

/-- The package record the PyPI resolver emits for a non-SELF graph node
(the `&extractor.Package{...}` literal in `PyPIDepsDevEnricher.resolveGroup`). -/
def pypiNodePackage (path : String) (name : String) (node : DepsDevNode) : Package :=
  { name := name
    version := node.versionKey.version
    purlType := purlTypePyPi
    metadata := none
    locations := [path]
    plugins := [PyPIDepsDevEnricherName] }

/-- The package record the Maven resolver emits for a non-SELF graph node
(the `&extractor.Package{...}` literal in `MavenDepsDevEnricher.resolveGroup`),
with the groupId:artifactId split and the transitive flag. -/
def mavenNodePackage (path : String) (name : String) (node : DepsDevNode) : Package :=
  { name := name
    version := node.versionKey.version
    purlType := purlTypeMaven
    metadata := some
      { artifactID := (cutFirstColon name).2.1
        groupID := (cutFirstColon name).1
        isTransitive := node.relation == "INDIRECT" }
    locations := [path]
    plugins := [MavenDepsDevEnricherName] }

/-- One step of the per-node loop shared by both resolvers: skip the SELF
node, normalize the name, build the dedup key `name@version`, skip if seen,
otherwise record the key and emit the package.  The state is the pair
(seen keys, emitted packages). -/
def processNode (normalize : String → String) (mk : String → DepsDevNode → Package)
    (st : List String × List Package) (node : DepsDevNode) :
    List String × List Package :=
  if node.relation == "SELF" then st
  else
    let name := normalize node.versionKey.name
    let key := name ++ "@" ++ node.versionKey.version
    if st.1.contains key then st
    else (key :: st.1, st.2 ++ [mk name node])

/-- One step of the per-package loop shared by both resolvers: skip unpinned
packages (empty version), skip packages whose fetch fails (`none`), and fold
the graph nodes otherwise. -/
def processEntry (normalize : String → String) (mk : String → DepsDevNode → Package)
    (fetch : String → String → Option DepsDevDependencyGraph)
    (st : List String × List Package) (entry : String × PackageWithIndex) :
    List String × List Package :=
  if entry.2.pkg.version == "" then st
  else
    match fetch entry.2.pkg.name entry.2.pkg.version with
    | none => st
    | some graph => graph.nodes.foldl (processNode normalize mk) st

/-- The shared body of `resolveGroup`: fold the dedup state over every
package of the group.  `fetch` models `client.GetDependencies` (`none` is
a logged-and-skipped error). -/
def resolveGroupCore (normalize : String → String) (mk : String → DepsDevNode → Package)
    (fetch : String → String → Option DepsDevDependencyGraph)
    (pkgMap : PkgMap) : List String × List Package :=
  pkgMap.foldl (processEntry normalize mk fetch) ([], [])

/-- Embedding of `PyPIDepsDevEnricher.resolveGroup`: dedup across the whole
group, lowercase normalization, and the NoDependenciesResolvedError branch
`len(result) == 0 && len(pkgMap) > 0`. -/
def pypiResolveGroup (fetch : String → String → Option DepsDevDependencyGraph)
    (path : String) (pkgMap : PkgMap) : Except String (List Package) :=
  let result := (resolveGroupCore pypiNormalizeName (pypiNodePackage path) fetch pkgMap).2
  if result.isEmpty && !pkgMap.isEmpty then
    Except.error "no dependencies resolved from deps.dev"
  else
    Except.ok result

/-- Embedding of `MavenDepsDevEnricher.resolveGroup`: dedup across the whole
group, verbatim names, Maven metadata, and the error branch
`len(result) == 0 && len(pkgMap) > 0`. -/
def mavenResolveGroup (fetch : String → String → Option DepsDevDependencyGraph)
    (path : String) (pkgMap : PkgMap) : Except String (List Package) :=
  let result := (resolveGroupCore mavenNormalizeName (mavenNodePackage path) fetch pkgMap).2
  if result.isEmpty && !pkgMap.isEmpty then
    Except.error "no Maven dependencies resolved from deps.dev"
  else
    Except.ok result

/-- Insert one grouped package into the path-keyed group map
(`pkgGroups[path][pkg.Name] = packageWithIndex{pkg, i}` plus the creation
of the inner map on first use). -/
def groupsInsert (groups : List (String × PkgMap)) (path key : String)
    (v : PackageWithIndex) : List (String × PkgMap) :=
  match groups with
  | [] => [(path, [(key, v)])]
  | (p0, m0) :: rest =>
    if p0 == path then (p0, listInsertReplace m0 key v) :: rest
    else (p0, m0) :: groupsInsert rest path key v

/-- The grouping loop of `PyPIDepsDevEnricher.Enrich` over the inventory
slice, carrying the running index: keep packages produced by the
requirements extractor that have at least one location, group them by the
first location. -/
def pypiGroupAux : Nat → List Package → List (String × PkgMap) → List (String × PkgMap)
  | _, [], acc => acc
  | i, pkg :: rest, acc =>
    pypiGroupAux (i + 1) rest
      (if pkg.plugins.contains requirementsExtractorName then
        match pkg.locations with
        | [] => acc
        | path :: _ => groupsInsert acc path pkg.name ⟨pkg, i⟩
      else acc)

/-- Embedding of the grouping phase of `PyPIDepsDevEnricher.Enrich`. -/
def pypiGroup (inv : List Package) : List (String × PkgMap) :=
  pypiGroupAux 0 inv []

/-- The grouping loop of `MavenDepsDevEnricher.Enrich`: keep packages with
at least one Maven extractor plugin and at least one location. -/
def mavenGroupAux : Nat → List Package → List (String × PkgMap) → List (String × PkgMap)
  | _, [], acc => acc
  | i, pkg :: rest, acc =>
    mavenGroupAux (i + 1) rest
      (if pkg.plugins.any isMavenPlugin then
        match pkg.locations with
        | [] => acc
        | path :: _ => groupsInsert acc path pkg.name ⟨pkg, i⟩
      else acc)

/-- Embedding of the grouping phase of `MavenDepsDevEnricher.Enrich`. -/
def mavenGroup (inv : List Package) : List (String × PkgMap) :=
  mavenGroupAux 0 inv []

/-- Replace the element at an index by the image of a function, identity out
of range; models an in-place write `inv.Packages[i].Field = ...`. -/
def updateAt {α : Type} : List α → Nat → (α → α) → List α
  | [], _, _ => []
  | x :: xs, 0, f => f x :: xs
  | x :: xs, n + 1, f => x :: updateAt xs n f

/-- The merge of one resolved package in `PyPIDepsDevEnricher.Enrich`: a
name found in the group map updates that inventory entry's version and
unconditionally appends the enricher name to its plugins; otherwise the
package is appended to the inventory. -/
def pypiMergeOne (pkgMap : PkgMap) (cur : List Package) (pkg : Package) : List Package :=
  match List.lookup pkg.name pkgMap with
  | some indexPkg =>
    updateAt cur indexPkg.index (fun e =>
      { e with
        version := pkg.version
        plugins := e.plugins ++ [PyPIDepsDevEnricherName] })
  | none => cur ++ [pkg]

/-- The merge of one resolved package in `MavenDepsDevEnricher.Enrich`:
like the PyPI merge, but the enricher name is appended to the entry's
plugins only if not already present (`slices.Contains` guard). -/
def mavenMergeOne (pkgMap : PkgMap) (cur : List Package) (pkg : Package) : List Package :=
  match List.lookup pkg.name pkgMap with
  | some indexPkg =>
    updateAt cur indexPkg.index (fun e =>
      { e with
        version := pkg.version
        plugins :=
          if e.plugins.contains MavenDepsDevEnricherName then e.plugins
          else e.plugins ++ [MavenDepsDevEnricherName] })
  | none => cur ++ [pkg]

/-- The merge loop of `PyPIDepsDevEnricher.Enrich` over one group's
resolved packages. -/
def pypiApplyResolved (pkgMap : PkgMap) (cur : List Package)
    (pkgs : List Package) : List Package :=
  pkgs.foldl (pypiMergeOne pkgMap) cur

/-- The merge loop of `MavenDepsDevEnricher.Enrich` over one group's
resolved packages. -/
def mavenApplyResolved (pkgMap : PkgMap) (cur : List Package)
    (pkgs : List Package) : List Package :=
  pkgs.foldl (mavenMergeOne pkgMap) cur

/-- One iteration of the per-group loop of `PyPIDepsDevEnricher.Enrich`:
a group whose resolution fails is logged and skipped, otherwise its
resolved packages are merged into the inventory. -/
def pypiEnrichStep (fetch : String → String → Option DepsDevDependencyGraph)
    (cur : List Package) (group : String × PkgMap) : List Package :=
  match pypiResolveGroup fetch group.1 group.2 with
  | Except.error _ => cur
  | Except.ok pkgs => pypiApplyResolved group.2 cur pkgs

/-- One iteration of the per-group loop of `MavenDepsDevEnricher.Enrich`. -/
def mavenEnrichStep (fetch : String → String → Option DepsDevDependencyGraph)
    (cur : List Package) (group : String × PkgMap) : List Package :=
  match mavenResolveGroup fetch group.1 group.2 with
  | Except.error _ => cur
  | Except.ok pkgs => mavenApplyResolved group.2 cur pkgs

/-- The inventory produced by one run of `PyPIDepsDevEnricher.Enrich`
(group, resolve each group, merge). -/
def pypiRun (fetch : String → String → Option DepsDevDependencyGraph)
    (inv : List Package) : List Package :=
  (pypiGroup inv).foldl (pypiEnrichStep fetch) inv

/-- The inventory produced by one run of `MavenDepsDevEnricher.Enrich`. -/
def mavenRun (fetch : String → String → Option DepsDevDependencyGraph)
    (inv : List Package) : List Package :=
  (mavenGroup inv).foldl (mavenEnrichStep fetch) inv

/-- Embedding of `PyPIDepsDevEnricher.Enrich` including its return value:
the function body ends in `return nil`, so the result is always `ok`. -/
def pypiEnrich (fetch : String → String → Option DepsDevDependencyGraph)
    (inv : List Package) : Except String (List Package) :=
  Except.ok (pypiRun fetch inv)

/-- Embedding of `MavenDepsDevEnricher.Enrich` including its return value. -/
def mavenEnrich (fetch : String → String → Option DepsDevDependencyGraph)
    (inv : List Package) : Except String (List Package) :=
  Except.ok (mavenRun fetch inv)

/-- The dedup identity of an emitted package: normalized name and version,
joined as `name@version` exactly as the resolver's `key` variable. -/
def dedupKey (p : Package) : String := p.name ++ "@" ++ p.version

/-! Concrete inputs used by the example-level theorems below. -/

/-- A pinned direct dependency from a requirements.txt manifest. -/
def exRequests : Package :=
  { name := "requests", version := "2.31.0", purlType := "pypi", metadata := none
    locations := ["requirements.txt"], plugins := ["python/requirements"] }

/-- The SELF node of the requests dependency graph. -/
def exSelfNode : DepsDevNode :=
  { versionKey := { system := "PYPI", name := "requests", version := "2.31.0" }
    bundled := false, relation := "SELF", errors := [] }

/-- An indirect dependency node of the requests dependency graph. -/
def exCertifiNode : DepsDevNode :=
  { versionKey := { system := "PYPI", name := "certifi", version := "2023.7.22" }
    bundled := false, relation := "INDIRECT", errors := [] }

/-- The dependency graph of requests 2.31.0. -/
def exGraph : DepsDevDependencyGraph := { nodes := [exSelfNode, exCertifiNode], edges := [] }

/-- A fetch oracle that knows only the requests 2.31.0 graph. -/
def exFetch : String → String → Option DepsDevDependencyGraph :=
  fun n v => if n == "requests" && v == "2.31.0" then some exGraph else none

/-- An inventory holding the one direct dependency. -/
def exInv : List Package := [exRequests]

/-- The transitive package the resolver emits for the certifi node. -/
def exCertifi : Package :=
  { name := "certifi", version := "2023.7.22", purlType := "pypi", metadata := none
    locations := ["requirements.txt"], plugins := [PyPIDepsDevEnricherName] }

/-- An unpinned (empty version) requirements.txt package. -/
def unpinnedFlask : Package :=
  { name := "flask", version := "", purlType := "pypi", metadata := none
    locations := ["requirements.txt"], plugins := ["python/requirements"] }

/-- A manifest group whose only package is unpinned. -/
def unpinnedGroup : PkgMap := [("flask", ⟨unpinnedFlask, 0⟩)]

/-- An unpinned Maven package. -/
def unpinnedMaven : Package :=
  { name := "com.foo:bar", version := "", purlType := "maven", metadata := none
    locations := ["pom.xml"], plugins := ["java/pomxml"] }

/-- A Maven manifest group whose only package is unpinned. -/
def unpinnedMavenGroup : PkgMap := [("com.foo:bar", ⟨unpinnedMaven, 0⟩)]

/-- A direct dependency already present in the inventory under its
exact (lowercase) name. -/
def mUrllib : Package :=
  { name := "urllib3", version := "1.0", purlType := "pypi", metadata := none
    locations := ["requirements.txt"], plugins := ["python/requirements"] }

/-- The group map of the manifest containing `mUrllib` at index 0. -/
def mGroup : PkgMap := [("urllib3", ⟨mUrllib, 0⟩)]

/-- A resolver-emitted package whose name matches the manifest entry. -/
def mResolved : Package :=
  { name := "urllib3", version := "2.0", purlType := "pypi", metadata := none
    locations := ["requirements.txt"], plugins := [PyPIDepsDevEnricherName] }

/-- A Maven manifest entry for the merge-identity witness. -/
def mvPkg : Package :=
  { name := "com.foo:bar", version := "1.0", purlType := "maven", metadata := none
    locations := ["pom.xml"], plugins := ["java/pomxml"] }

/-- The Maven group map containing `mvPkg` at index 0. -/
def mvGroup : PkgMap := [("com.foo:bar", ⟨mvPkg, 0⟩)]

/-- A resolver-emitted Maven package matching `mvPkg` by name. -/
def mvResolved : Package :=
  { name := "com.foo:bar", version := "2.0", purlType := "maven"
    metadata := some { artifactID := "bar", groupID := "com.foo", isTransitive := false }
    locations := ["pom.xml"], plugins := [MavenDepsDevEnricherName] }

/-- First direct dependency of the shared-transitive scenario. -/
def c4A : Package :=
  { name := "a", version := "1.0", purlType := "pypi", metadata := none
    locations := ["r.txt"], plugins := ["python/requirements"] }

/-- Second direct dependency of the shared-transitive scenario. -/
def c4B : Package :=
  { name := "b", version := "1.0", purlType := "pypi", metadata := none
    locations := ["r.txt"], plugins := ["python/requirements"] }

/-- Group with two direct dependencies that share a transitive dependency. -/
def c4Group : PkgMap := [("a", ⟨c4A, 0⟩), ("b", ⟨c4B, 1⟩)]

/-- The shared transitive node x 1.0, as reached from a. -/
def c4XNode : DepsDevNode :=
  { versionKey := { system := "PYPI", name := "x", version := "1.0" }
    bundled := false, relation := "INDIRECT", errors := [] }

/-- Graph of a 1.0: itself plus the shared transitive x. -/
def c4GraphA : DepsDevDependencyGraph :=
  { nodes := [{ versionKey := { system := "PYPI", name := "a", version := "1.0" }
                bundled := false, relation := "SELF", errors := [] }, c4XNode]
    edges := [] }

/-- Graph of b 1.0: itself plus the same shared transitive x. -/
def c4GraphB : DepsDevDependencyGraph :=
  { nodes := [{ versionKey := { system := "PYPI", name := "b", version := "1.0" }
                bundled := false, relation := "SELF", errors := [] }, c4XNode]
    edges := [] }

/-- Fetch oracle for the shared-transitive scenario. -/
def c4Fetch : String → String → Option DepsDevDependencyGraph :=
  fun n _ => if n == "a" then some c4GraphA else if n == "b" then some c4GraphB else none

/-- A pinned direct package used in the case-normalization scenario. -/
def c5Pkg : Package :=
  { name := "pkg", version := "1.0", purlType := "pypi", metadata := none
    locations := ["requirements.txt"], plugins := ["python/requirements"] }

/-- Group for the case-normalization scenario. -/
def c5Group : PkgMap := [("pkg", ⟨c5Pkg, 0⟩)]

/-- Graph whose direct dependencies are Flask 2.0 and flask 2.0: they
differ only in case. -/
def c5Graph : DepsDevDependencyGraph :=
  { nodes :=
      [{ versionKey := { system := "PYPI", name := "pkg", version := "1.0" }
         bundled := false, relation := "SELF", errors := [] },
       { versionKey := { system := "PYPI", name := "Flask", version := "2.0" }
         bundled := false, relation := "DIRECT", errors := [] },
       { versionKey := { system := "PYPI", name := "flask", version := "2.0" }
         bundled := false, relation := "DIRECT", errors := [] }]
    edges := [] }

/-- Fetch oracle of the case-normalization scenario. -/
def c5Fetch : String → String → Option DepsDevDependencyGraph :=
  fun n v => if n == "pkg" && v == "1.0" then some c5Graph else none

/-- The single package the PyPI resolver emits for `c5Graph`. -/
def c5Flask : Package :=
  { name := "flask", version := "2.0", purlType := "pypi", metadata := none
    locations := ["requirements.txt"], plugins := [PyPIDepsDevEnricherName] }

/-- A Maven group for the verbatim-name scenario. -/
def c5mPkg : Package :=
  { name := "com.foo:bar", version := "1.0", purlType := "maven", metadata := none
    locations := ["pom.xml"], plugins := ["java/pomxml"] }

/-- Group for the Maven verbatim-name scenario. -/
def c5mGroup : PkgMap := [("com.foo:bar", ⟨c5mPkg, 0⟩)]

/-- Graph with a mixed-case Maven dependency name. -/
def c5mGraph : DepsDevDependencyGraph :=
  { nodes :=
      [{ versionKey := { system := "MAVEN", name := "com.foo:bar", version := "1.0" }
         bundled := false, relation := "SELF", errors := [] },
       { versionKey := { system := "MAVEN", name := "com.Foo:Bar", version := "2.0" }
         bundled := false, relation := "DIRECT", errors := [] }]
    edges := [] }

/-- Fetch oracle of the Maven verbatim-name scenario. -/
def c5mFetch : String → String → Option DepsDevDependencyGraph :=
  fun n v => if n == "com.foo:bar" && v == "1.0" then some c5mGraph else none

/-- The Maven package emitted for the mixed-case node, name preserved. -/
def c5mOut : Package :=
  { name := "com.Foo:Bar", version := "2.0", purlType := "maven"
    metadata := some { artifactID := "Bar", groupID := "com.Foo", isTransitive := false }
    locations := ["pom.xml"], plugins := [MavenDepsDevEnricherName] }

/-- The Maven direct dependency of the metadata-split scenario. -/
def c7Direct : Package :=
  { name := "org.apache:commons", version := "1.0", purlType := "maven", metadata := none
    locations := ["pom.xml"], plugins := ["java/pomxml"] }

/-- Group of the metadata-split scenario. -/
def c7Group : PkgMap := [("org.apache:commons", ⟨c7Direct, 0⟩)]

/-- The INDIRECT node org.apache:commons-io 2.5. -/
def c7Node : DepsDevNode :=
  { versionKey := { system := "MAVEN", name := "org.apache:commons-io", version := "2.5" }
    bundled := false, relation := "INDIRECT", errors := [] }

/-- Graph of org.apache:commons 1.0. -/
def c7Graph : DepsDevDependencyGraph :=
  { nodes := [{ versionKey := { system := "MAVEN", name := "org.apache:commons", version := "1.0" }
                bundled := false, relation := "SELF", errors := [] }, c7Node]
    edges := [] }

/-- Fetch oracle of the metadata-split scenario. -/
def c7Fetch : String → String → Option DepsDevDependencyGraph :=
  fun n v => if n == "org.apache:commons" && v == "1.0" then some c7Graph else none

/-- The expected emitted package of the metadata-split scenario. -/
def c7Out : Package :=
  { name := "org.apache:commons-io", version := "2.5", purlType := "maven"
    metadata := some { artifactID := "commons-io", groupID := "org.apache", isTransitive := true }
    locations := ["pom.xml"], plugins := [MavenDepsDevEnricherName] }

/-- A manifest entry whose stored name contains an uppercase letter. -/
def flaskUpper : Package :=
  { name := "Flask", version := "1.0", purlType := "pypi", metadata := none
    locations := ["requirements.txt"], plugins := ["python/requirements"] }

/-- Graph of Flask 1.0 containing a non-SELF node also named Flask. -/
def flaskGraph : DepsDevDependencyGraph :=
  { nodes :=
      [{ versionKey := { system := "PYPI", name := "Flask", version := "1.0" }
         bundled := false, relation := "SELF", errors := [] },
       { versionKey := { system := "PYPI", name := "Flask", version := "2.0" }
         bundled := false, relation := "DIRECT", errors := [] }]
    edges := [] }

/-- Fetch oracle of the uppercase-name merge scenario. -/
def flaskFetch : String → String → Option DepsDevDependencyGraph :=
  fun n v => if n == "Flask" && v == "1.0" then some flaskGraph else none

/-- The lowercase package the resolver emits for the second Flask node. -/
def flaskLower : Package :=
  { name := "flask", version := "2.0", purlType := "pypi", metadata := none
    locations := ["requirements.txt"], plugins := [PyPIDepsDevEnricherName] }

/-- The single deduplicated package the resolver emits for the
shared-transitive scenario. -/
def c4XOut : Package :=
  { name := "x", version := "1.0", purlType := "pypi", metadata := none
    locations := ["r.txt"], plugins := [PyPIDepsDevEnricherName] }

/-- The list of packages one group contributes during an Enrich run: the
resolver output of the group, or nothing when the group's resolution
failed (the error is logged and the loop continues). -/
def pypiGroupOut (fetch : String → String → Option DepsDevDependencyGraph)
    (pm : String × PkgMap) : List Package :=
  match pypiResolveGroup fetch pm.1 pm.2 with
  | Except.error _ => []
  | Except.ok pkgs => pkgs

/-- All packages an Enrich run contributes across its groups, in group
order. -/
def pypiAppends (fetch : String → String → Option DepsDevDependencyGraph)
    (inv : List Package) : List Package :=
  ((pypiGroup inv).map (pypiGroupOut fetch)).flatten

/-! Helper lemmas. -/

lemma updateAt_length {α : Type} (l : List α) (i : Nat) (f : α → α) :
    (updateAt l i f).length = l.length := by
  induction l generalizing i with
  | nil => rfl
  | cons x xs ih =>
    cases i with
    | zero => rfl
    | succ n => simp [updateAt, ih]

lemma updateAt_getElem?_self {α : Type} (l : List α) (i : Nat) (f : α → α) :
    (updateAt l i f)[i]? = l[i]?.map f := by
  induction l generalizing i with
  | nil => rfl
  | cons x xs ih =>
    cases i with
    | zero => simp [updateAt]
    | succ n => simpa [updateAt] using ih n

lemma updateAt_getElem?_ne {α : Type} (l : List α) (i j : Nat) (f : α → α) (h : j ≠ i) :
    (updateAt l i f)[j]? = l[j]? := by
  induction l generalizing i j with
  | nil => rfl
  | cons x xs ih =>
    cases i with
    | zero =>
      cases j with
      | zero => exact absurd rfl h
      | succ m => simp [updateAt]
    | succ n =>
      cases j with
      | zero => simp [updateAt]
      | succ m => simpa [updateAt] using ih n m (fun hm => h (by rw [hm]))

lemma lookup_mem {β : Type} (a : String) (l : List (String × β)) (b : β)
    (h : List.lookup a l = some b) : (a, b) ∈ l := by
  induction l with
  | nil => simp [List.lookup] at h
  | cons kv rest ih =>
    obtain ⟨k, v⟩ := kv
    cases hk : a == k with
    | true =>
      rw [List.lookup, hk] at h
      simp at h
      subst h
      have hak : a = k := beq_iff_eq.mp hk
      subst hak
      exact List.mem_cons_self _ _
    | false =>
      rw [List.lookup, hk] at h
      exact List.mem_cons_of_mem _ (ih h)

lemma toNat_ofNat_of_valid (n : Nat) (h : n.isValidChar) : (Char.ofNat n).toNat = n := by
  rw [Char.ofNat, dif_pos h]
  rfl

lemma isUpperAscii_lowerChar (c : Char) : isUpperAscii (lowerChar c) = false := by
  unfold lowerChar
  split
  · rename_i h
    unfold isUpperAscii at h ⊢
    simp only [Bool.and_eq_true, decide_eq_true_eq] at h
    have hv : (c.toNat + 32).isValidChar := Or.inl (by omega)
    rw [toNat_ofNat_of_valid _ hv]
    simp only [Bool.and_eq_false_iff, decide_eq_false_iff_not]
    omega
  · rename_i h
    exact Bool.eq_false_iff.mpr h

lemma containsUpper_goToLower (s : String) : containsUpperAscii (goToLower s) = false := by
  unfold containsUpperAscii goToLower
  simp [List.any_map, Function.comp, isUpperAscii_lowerChar]

lemma cutColonList_append (la lb : List Char) (h : ':' ∉ la) :
    cutColonList (la ++ ':' :: lb) = some (la, lb) := by
  induction la with
  | nil => simp [cutColonList]
  | cons c cs ih =>
    have hc : ¬(c = ':') := fun hc => h (by simp [hc])
    have ih2 := ih (fun hm => h (List.mem_cons_of_mem _ hm))
    simp [cutColonList, if_neg hc, ih2]

lemma cutFirstColon_append (a b : String) (h : ':' ∉ a.data) :
    cutFirstColon (a ++ ":" ++ b) = (a, b, true) := by
  unfold cutFirstColon
  have hd : (a ++ ":" ++ b).data = a.data ++ ':' :: b.data := by
    simp [String.data_append]
  rw [hd, cutColonList_append _ _ h]

lemma processNode_mem (normalize : String → String) (mk : String → DepsDevNode → Package)
    (st : List String × List Package) (node : DepsDevNode) :
    ∀ p ∈ (processNode normalize mk st node).2,
      p ∈ st.2 ∨ (node.relation ≠ "SELF" ∧ p = mk (normalize node.versionKey.name) node) := by
  unfold processNode
  split
  · exact fun p hp => Or.inl hp
  · rename_i hself
    dsimp only
    split
    · exact fun p hp => Or.inl hp
    · intro p hp
      simp only [List.mem_append, List.mem_singleton] at hp
      rcases hp with hp | hp
      · exact Or.inl hp
      · exact Or.inr ⟨by simpa using hself, hp⟩

lemma foldl_processNode_mem (normalize : String → String) (mk : String → DepsDevNode → Package)
    (nodes : List DepsDevNode) :
    ∀ st, ∀ p ∈ (nodes.foldl (processNode normalize mk) st).2,
      p ∈ st.2 ∨ ∃ node ∈ nodes, node.relation ≠ "SELF" ∧
        p = mk (normalize node.versionKey.name) node := by
  induction nodes with
  | nil => exact fun st p hp => Or.inl hp
  | cons n ns ih =>
    intro st p hp
    rcases ih (processNode normalize mk st n) p hp with h | ⟨node, hm, hr, he⟩
    · rcases processNode_mem normalize mk st n p h with h2 | ⟨hr, he⟩
      · exact Or.inl h2
      · exact Or.inr ⟨n, List.mem_cons_self _ _, hr, he⟩
    · exact Or.inr ⟨node, List.mem_cons_of_mem _ hm, hr, he⟩

lemma processEntry_mem (normalize : String → String) (mk : String → DepsDevNode → Package)
    (fetch : String → String → Option DepsDevDependencyGraph)
    (st : List String × List Package) (entry : String × PackageWithIndex) :
    ∀ p ∈ (processEntry normalize mk fetch st entry).2,
      p ∈ st.2 ∨ (entry.2.pkg.version ≠ "" ∧ ∃ g,
        fetch entry.2.pkg.name entry.2.pkg.version = some g ∧
        ∃ node ∈ g.nodes, node.relation ≠ "SELF" ∧
          p = mk (normalize node.versionKey.name) node) := by
  unfold processEntry
  split
  · exact fun p hp => Or.inl hp
  · rename_i hver
    split
    · exact fun p hp => Or.inl hp
    · rename_i g hg
      intro p hp
      rcases foldl_processNode_mem normalize mk g.nodes st p hp with h | ⟨node, hm, hr, he⟩
      · exact Or.inl h
      · exact Or.inr ⟨by simpa using hver, g, hg, node, hm, hr, he⟩

lemma foldl_processEntry_mem (normalize : String → String) (mk : String → DepsDevNode → Package)
    (fetch : String → String → Option DepsDevDependencyGraph)
    (entries : List (String × PackageWithIndex)) :
    ∀ st, ∀ p ∈ (entries.foldl (processEntry normalize mk fetch) st).2,
      p ∈ st.2 ∨ ∃ e ∈ entries, e.2.pkg.version ≠ "" ∧ ∃ g,
        fetch e.2.pkg.name e.2.pkg.version = some g ∧
        ∃ node ∈ g.nodes, node.relation ≠ "SELF" ∧
          p = mk (normalize node.versionKey.name) node := by
  induction entries with
  | nil => exact fun st p hp => Or.inl hp
  | cons e es ih =>
    intro st p hp
    rcases ih (processEntry normalize mk fetch st e) p hp with h | ⟨e2, hm, rest⟩
    · rcases processEntry_mem normalize mk fetch st e p h with h2 | hrest
      · exact Or.inl h2
      · exact Or.inr ⟨e, List.mem_cons_self _ _, hrest⟩
    · exact Or.inr ⟨e2, List.mem_cons_of_mem _ hm, rest⟩

lemma resolveGroupCore_mem (normalize : String → String) (mk : String → DepsDevNode → Package)
    (fetch : String → String → Option DepsDevDependencyGraph) (pkgMap : PkgMap) :
    ∀ p ∈ (resolveGroupCore normalize mk fetch pkgMap).2,
      ∃ e ∈ pkgMap, e.2.pkg.version ≠ "" ∧ ∃ g,
        fetch e.2.pkg.name e.2.pkg.version = some g ∧
        ∃ node ∈ g.nodes, node.relation ≠ "SELF" ∧
          p = mk (normalize node.versionKey.name) node := by
  intro p hp
  rcases foldl_processEntry_mem normalize mk fetch pkgMap ([], []) p hp with h | h
  · simp at h
  · exact h

lemma processNode_dedup (normalize : String → String) (mk : String → DepsDevNode → Package)
    (Hmk : ∀ name node, dedupKey (mk name node) = name ++ "@" ++ node.versionKey.version)
    (st : List String × List Package) (node : DepsDevNode)
    (h1 : ∀ k, st.1.contains k = true ↔ ∃ p ∈ st.2, dedupKey p = k)
    (h2 : (st.2.map dedupKey).Nodup) :
    (∀ k, (processNode normalize mk st node).1.contains k = true ↔
      ∃ p ∈ (processNode normalize mk st node).2, dedupKey p = k) ∧
    ((processNode normalize mk st node).2.map dedupKey).Nodup := by
  unfold processNode
  split
  · exact ⟨h1, h2⟩
  · dsimp only
    split
    · exact ⟨h1, h2⟩
    · rename_i hseen
      constructor
      · intro k
        simp only [List.contains_cons, Bool.or_eq_true, beq_iff_eq, List.mem_append,
          List.mem_singleton]
        constructor
        · intro hk
          rcases hk with hk | hk
          · exact ⟨mk (normalize node.versionKey.name) node, Or.inr rfl, by rw [Hmk, hk]⟩
          · rcases (h1 k).mp hk with ⟨p, hp, hkey⟩
            exact ⟨p, Or.inl hp, hkey⟩
        · rintro ⟨p, hp | hp, hkey⟩
          · exact Or.inr ((h1 k).mpr ⟨p, hp, hkey⟩)
          · subst hp
            rw [Hmk] at hkey
            exact Or.inl hkey.symm
      · rw [List.map_append]
        simp only [List.map_cons, List.map_nil]
        rw [List.nodup_append]
        refine ⟨h2, List.nodup_singleton _, ?_⟩
        intro a ha hb
        simp only [List.mem_singleton] at hb
        subst hb
        rw [Hmk] at ha
        have := (h1 _).mpr (by
          simp only [List.mem_map] at ha
          rcases ha with ⟨p, hp, hkey⟩
          exact ⟨p, hp, hkey⟩)
        exact hseen this

lemma foldl_processNode_dedup (normalize : String → String) (mk : String → DepsDevNode → Package)
    (Hmk : ∀ name node, dedupKey (mk name node) = name ++ "@" ++ node.versionKey.version)
    (nodes : List DepsDevNode) :
    ∀ st, (∀ k, st.1.contains k = true ↔ ∃ p ∈ st.2, dedupKey p = k) →
      (st.2.map dedupKey).Nodup →
      (∀ k, (nodes.foldl (processNode normalize mk) st).1.contains k = true ↔
        ∃ p ∈ (nodes.foldl (processNode normalize mk) st).2, dedupKey p = k) ∧
      ((nodes.foldl (processNode normalize mk) st).2.map dedupKey).Nodup := by
  induction nodes with
  | nil => exact fun st h1 h2 => ⟨h1, h2⟩
  | cons n ns ih =>
    intro st h1 h2
    have step := processNode_dedup normalize mk Hmk st n h1 h2
    exact ih (processNode normalize mk st n) step.1 step.2

lemma processEntry_dedup (normalize : String → String) (mk : String → DepsDevNode → Package)
    (Hmk : ∀ name node, dedupKey (mk name node) = name ++ "@" ++ node.versionKey.version)
    (fetch : String → String → Option DepsDevDependencyGraph)
    (st : List String × List Package) (entry : String × PackageWithIndex)
    (h1 : ∀ k, st.1.contains k = true ↔ ∃ p ∈ st.2, dedupKey p = k)
    (h2 : (st.2.map dedupKey).Nodup) :
    (∀ k, (processEntry normalize mk fetch st entry).1.contains k = true ↔
      ∃ p ∈ (processEntry normalize mk fetch st entry).2, dedupKey p = k) ∧
    ((processEntry normalize mk fetch st entry).2.map dedupKey).Nodup := by
  unfold processEntry
  split
  · exact ⟨h1, h2⟩
  · split
    · exact ⟨h1, h2⟩
    · exact foldl_processNode_dedup normalize mk Hmk _ st h1 h2

lemma resolveGroupCore_dedup (normalize : String → String) (mk : String → DepsDevNode → Package)
    (Hmk : ∀ name node, dedupKey (mk name node) = name ++ "@" ++ node.versionKey.version)
    (fetch : String → String → Option DepsDevDependencyGraph) (pkgMap : PkgMap) :
    (∀ k, (resolveGroupCore normalize mk fetch pkgMap).1.contains k = true ↔
      ∃ p ∈ (resolveGroupCore normalize mk fetch pkgMap).2, dedupKey p = k) ∧
    ((resolveGroupCore normalize mk fetch pkgMap).2.map dedupKey).Nodup := by
  unfold resolveGroupCore
  generalize hstart : (([], []) : List String × List Package) = st
  have h1 : ∀ k, st.1.contains k = true ↔ ∃ p ∈ st.2, dedupKey p = k := by
    subst hstart
    simp
  have h2 : (st.2.map dedupKey).Nodup := by
    subst hstart
    simp
  clear hstart
  induction pkgMap generalizing st with
  | nil => exact ⟨h1, h2⟩
  | cons e es ih =>
    have step := processEntry_dedup normalize mk Hmk fetch st e h1 h2
    exact ih (processEntry normalize mk fetch st e) step.1 step.2

lemma processNode_contains_mono (normalize : String → String)
    (mk : String → DepsDevNode → Package) (st : List String × List Package)
    (node : DepsDevNode) (k : String) (h : st.1.contains k = true) :
    (processNode normalize mk st node).1.contains k = true := by
  unfold processNode
  split
  · exact h
  · dsimp only
    split
    · exact h
    · simp only [List.contains_cons, Bool.or_eq_true]
      right
      exact h

lemma processNode_key_contains (normalize : String → String)
    (mk : String → DepsDevNode → Package) (st : List String × List Package)
    (node : DepsDevNode) (h : node.relation ≠ "SELF") :
    (processNode normalize mk st node).1.contains
      (normalize node.versionKey.name ++ "@" ++ node.versionKey.version) = true := by
  unfold processNode
  split
  · rename_i hs
    exact absurd (by simpa using hs) h
  · dsimp only
    split
    · assumption
    · simp [List.contains_cons]

lemma foldl_processNode_contains_mono (normalize : String → String)
    (mk : String → DepsDevNode → Package) (nodes : List DepsDevNode) :
    ∀ st k, st.1.contains k = true →
      (nodes.foldl (processNode normalize mk) st).1.contains k = true := by
  induction nodes with
  | nil => exact fun st k h => h
  | cons n ns ih =>
    exact fun st k h => ih _ k (processNode_contains_mono normalize mk st n k h)

lemma foldl_processNode_key_contains (normalize : String → String)
    (mk : String → DepsDevNode → Package) (nodes : List DepsDevNode) :
    ∀ st node, node ∈ nodes → node.relation ≠ "SELF" →
      (nodes.foldl (processNode normalize mk) st).1.contains
        (normalize node.versionKey.name ++ "@" ++ node.versionKey.version) = true := by
  induction nodes with
  | nil => intro st node h; simp at h
  | cons n ns ih =>
    intro st node hm hr
    rcases List.mem_cons.mp hm with h | h
    · subst h
      exact foldl_processNode_contains_mono normalize mk ns _ _
        (processNode_key_contains normalize mk st node hr)
    · exact ih _ node h hr

lemma processEntry_contains_mono (normalize : String → String)
    (mk : String → DepsDevNode → Package)
    (fetch : String → String → Option DepsDevDependencyGraph)
    (st : List String × List Package) (entry : String × PackageWithIndex)
    (k : String) (h : st.1.contains k = true) :
    (processEntry normalize mk fetch st entry).1.contains k = true := by
  unfold processEntry
  split
  · exact h
  · split
    · exact h
    · exact foldl_processNode_contains_mono normalize mk _ st k h

lemma foldl_processEntry_contains_mono (normalize : String → String)
    (mk : String → DepsDevNode → Package)
    (fetch : String → String → Option DepsDevDependencyGraph)
    (entries : List (String × PackageWithIndex)) :
    ∀ st k, st.1.contains k = true →
      (entries.foldl (processEntry normalize mk fetch) st).1.contains k = true := by
  induction entries with
  | nil => exact fun st k h => h
  | cons e es ih =>
    exact fun st k h => ih _ k (processEntry_contains_mono normalize mk fetch st e k h)

lemma foldl_processEntry_key_contains (normalize : String → String)
    (mk : String → DepsDevNode → Package)
    (fetch : String → String → Option DepsDevDependencyGraph)
    (entries : List (String × PackageWithIndex)) :
    ∀ st e g node, e ∈ entries → e.2.pkg.version ≠ "" →
      fetch e.2.pkg.name e.2.pkg.version = some g → node ∈ g.nodes →
      node.relation ≠ "SELF" →
      (entries.foldl (processEntry normalize mk fetch) st).1.contains
        (normalize node.versionKey.name ++ "@" ++ node.versionKey.version) = true := by
  induction entries with
  | nil => intro st e g node h; simp at h
  | cons e0 es ih =>
    intro st e g node hm hver hg hnode hr
    rcases List.mem_cons.mp hm with h | h
    · subst h
      have hkey : (processEntry normalize mk fetch st e).1.contains
          (normalize node.versionKey.name ++ "@" ++ node.versionKey.version) = true := by
        unfold processEntry
        rw [if_neg (by simpa using hver), hg]
        exact foldl_processNode_key_contains normalize mk g.nodes st node hnode hr
      exact foldl_processEntry_contains_mono normalize mk fetch es _ _ hkey
    · exact ih _ e g node h hver hg hnode hr

lemma resolveGroupCore_count_one (normalize : String → String)
    (mk : String → DepsDevNode → Package)
    (Hmk : ∀ name node, dedupKey (mk name node) = name ++ "@" ++ node.versionKey.version)
    (fetch : String → String → Option DepsDevDependencyGraph) (pkgMap : PkgMap)
    (e : String × PackageWithIndex) (g : DepsDevDependencyGraph) (node : DepsDevNode)
    (hm : e ∈ pkgMap) (hver : e.2.pkg.version ≠ "")
    (hg : fetch e.2.pkg.name e.2.pkg.version = some g)
    (hnode : node ∈ g.nodes) (hr : node.relation ≠ "SELF") :
    ((resolveGroupCore normalize mk fetch pkgMap).2.map dedupKey).count
      (normalize node.versionKey.name ++ "@" ++ node.versionKey.version) = 1 := by
  have hseen : (resolveGroupCore normalize mk fetch pkgMap).1.contains
      (normalize node.versionKey.name ++ "@" ++ node.versionKey.version) = true :=
    foldl_processEntry_key_contains normalize mk fetch pkgMap ([], []) e g node hm hver hg hnode hr
  have hinv := resolveGroupCore_dedup normalize mk Hmk fetch pkgMap
  rcases (hinv.1 _).mp hseen with ⟨p, hp, hkey⟩
  exact List.count_eq_one_of_mem hinv.2 (hkey ▸ List.mem_map_of_mem dedupKey hp)

lemma pypiResolveGroup_ok (fetch : String → String → Option DepsDevDependencyGraph)
    (path : String) (pkgMap : PkgMap) (result : List Package)
    (h : pypiResolveGroup fetch path pkgMap = Except.ok result) :
    result = (resolveGroupCore pypiNormalizeName (pypiNodePackage path) fetch pkgMap).2 := by
  unfold pypiResolveGroup at h
  dsimp only at h
  split at h
  · cases h
  · exact (Except.ok.injEq _ _ |>.mp h).symm

lemma mavenResolveGroup_ok (fetch : String → String → Option DepsDevDependencyGraph)
    (path : String) (pkgMap : PkgMap) (result : List Package)
    (h : mavenResolveGroup fetch path pkgMap = Except.ok result) :
    result = (resolveGroupCore mavenNormalizeName (mavenNodePackage path) fetch pkgMap).2 := by
  unfold mavenResolveGroup at h
  dsimp only at h
  split at h
  · cases h
  · exact (Except.ok.injEq _ _ |>.mp h).symm

lemma resolveGroupCore_all_unpinned (normalize : String → String)
    (mk : String → DepsDevNode → Package)
    (fetch : String → String → Option DepsDevDependencyGraph) (pkgMap : PkgMap)
    (h : ∀ e ∈ pkgMap, e.2.pkg.version = "") :
    resolveGroupCore normalize mk fetch pkgMap = ([], []) := by
  unfold resolveGroupCore
  induction pkgMap with
  | nil => rfl
  | cons e es ih =>
    have he := h e (List.mem_cons_self _ _)
    have hstep : processEntry normalize mk fetch ([], []) e = ([], []) := by
      unfold processEntry
      rw [if_pos (by simp [he])]
    rw [List.foldl_cons, hstep]
    exact ih (fun x hx => h x (List.mem_cons_of_mem _ hx))

/-- Claim C2 (corrected).  A manifest group whose packages all have an empty
version attempts no lookups and emits nothing; contrary to the claim, when
such a group is nonempty both resolvers DO fail with the
NoDependenciesResolvedError message, because the guard tests
`len(result) == 0 && len(pkgMap) > 0` over all entries; only an empty group
returns an empty result without error. -/
theorem resolveGroup_all_unpinned :
    ∀ (fetch : String → String → Option DepsDevDependencyGraph) (path : String)
      (pkgMap : PkgMap),
      (∀ e ∈ pkgMap, e.2.pkg.version = "") →
      (pkgMap ≠ [] →
        pypiResolveGroup fetch path pkgMap =
          Except.error "no dependencies resolved from deps.dev" ∧
        mavenResolveGroup fetch path pkgMap =
          Except.error "no Maven dependencies resolved from deps.dev") ∧
      (pkgMap = [] →
        pypiResolveGroup fetch path pkgMap = Except.ok [] ∧
        mavenResolveGroup fetch path pkgMap = Except.ok []) := by
  intro fetch path pkgMap hall
  have h1 := resolveGroupCore_all_unpinned pypiNormalizeName (pypiNodePackage path) fetch pkgMap hall
  have h2 := resolveGroupCore_all_unpinned mavenNormalizeName (mavenNodePackage path) fetch pkgMap hall
  constructor
  · intro hne
    cases pkgMap with
    | nil => exact absurd rfl hne
    | cons e es =>
      constructor
      · unfold pypiResolveGroup
        rw [h1]
        rfl
      · unfold mavenResolveGroup
        rw [h2]
        rfl
  · intro he
    subst he
    exact ⟨rfl, rfl⟩

/-- Claim C2, counterexample: a concrete nonempty all-unpinned PyPI group
makes resolveGroup return the NoDependenciesResolvedError, refuting the
claim that no error is raised. -/
theorem resolveGroup_all_unpinned_counterexample :
    pypiResolveGroup (fun _ _ => none) "requirements.txt" unpinnedGroup =
      Except.error "no dependencies resolved from deps.dev" := rfl

/-- Claim C2, witness: the corrected theorem applied to a concrete
nonempty all-unpinned Maven group. -/
theorem resolveGroup_all_unpinned_witness :
    mavenResolveGroup (fun _ _ => none) "pom.xml" unpinnedMavenGroup =
      Except.error "no Maven dependencies resolved from deps.dev" :=
  ((resolveGroup_all_unpinned (fun _ _ => none) "pom.xml" unpinnedMavenGroup
    (by decide)).1 (by decide)).2

/-- Claim C4 (confirmed).  Within one manifest group's resolution pass the
emitted packages have pairwise distinct `name@version` dedup keys, and any
non-SELF node reachable from a pinned group member (for example a package X
at version V that two direct packages both depend on) appears exactly once
in the resolver output; the dedup scope is the whole group, for both the
PyPI and the Maven resolver. -/
theorem resolver_dedup_exactly_once :
    ∀ (fetch : String → String → Option DepsDevDependencyGraph) (path : String)
      (pkgMap : PkgMap) (result : List Package),
      (pypiResolveGroup fetch path pkgMap = Except.ok result →
        (result.map dedupKey).Nodup ∧
        ∀ e ∈ pkgMap, e.2.pkg.version ≠ "" →
          ∀ g, fetch e.2.pkg.name e.2.pkg.version = some g →
            ∀ node ∈ g.nodes, node.relation ≠ "SELF" →
              (result.map dedupKey).count
                (pypiNormalizeName node.versionKey.name ++ "@" ++ node.versionKey.version) = 1) ∧
      (mavenResolveGroup fetch path pkgMap = Except.ok result →
        (result.map dedupKey).Nodup ∧
        ∀ e ∈ pkgMap, e.2.pkg.version ≠ "" →
          ∀ g, fetch e.2.pkg.name e.2.pkg.version = some g →
            ∀ node ∈ g.nodes, node.relation ≠ "SELF" →
              (result.map dedupKey).count
                (mavenNormalizeName node.versionKey.name ++ "@" ++ node.versionKey.version) = 1) := by
  intro fetch path pkgMap result
  constructor
  · intro h
    have hres := pypiResolveGroup_ok fetch path pkgMap result h
    subst hres
    refine ⟨(resolveGroupCore_dedup pypiNormalizeName (pypiNodePackage path)
      (fun _ _ => rfl) fetch pkgMap).2, ?_⟩
    intro e hm hver g hg node hnode hr
    exact resolveGroupCore_count_one pypiNormalizeName (pypiNodePackage path)
      (fun _ _ => rfl) fetch pkgMap e g node hm hver hg hnode hr
  · intro h
    have hres := mavenResolveGroup_ok fetch path pkgMap result h
    subst hres
    refine ⟨(resolveGroupCore_dedup mavenNormalizeName (mavenNodePackage path)
      (fun _ _ => rfl) fetch pkgMap).2, ?_⟩
    intro e hm hver g hg node hnode hr
    exact resolveGroupCore_count_one mavenNormalizeName (mavenNodePackage path)
      (fun _ _ => rfl) fetch pkgMap e g node hm hver hg hnode hr


/-- Claim C4, witness: two direct packages a and b whose graphs both
contain the transitive node x 1.0; x@1.0 occurs exactly once in the
output. -/
theorem resolver_dedup_exactly_once_witness :
    pypiResolveGroup c4Fetch "r.txt" c4Group = Except.ok [c4XOut] ∧
    ([c4XOut].map dedupKey).Nodup ∧
    ([c4XOut].map dedupKey).count
      (pypiNormalizeName c4XNode.versionKey.name ++ "@" ++ c4XNode.versionKey.version) = 1 := by
  have hok : pypiResolveGroup c4Fetch "r.txt" c4Group = Except.ok [c4XOut] := rfl
  have main := (resolver_dedup_exactly_once c4Fetch "r.txt" c4Group [c4XOut]).1 hok
  refine ⟨hok, main.1, ?_⟩
  exact main.2 ("a", ⟨c4A, 0⟩) (by decide) (by decide) c4GraphA rfl c4XNode (by decide) (by decide)

/-- Claim C6 (confirmed).  Every package in a resolver's output originates
from a graph node whose relation is not SELF: the SELF node of a fetched
dependency graph is never emitted, in either ecosystem. -/
theorem self_node_never_emitted :
    ∀ (fetch : String → String → Option DepsDevDependencyGraph) (path : String)
      (pkgMap : PkgMap) (result : List Package),
      (pypiResolveGroup fetch path pkgMap = Except.ok result →
        ∀ p ∈ result, ∃ e ∈ pkgMap, e.2.pkg.version ≠ "" ∧ ∃ g,
          fetch e.2.pkg.name e.2.pkg.version = some g ∧
          ∃ node ∈ g.nodes, node.relation ≠ "SELF" ∧
            p = pypiNodePackage path (pypiNormalizeName node.versionKey.name) node) ∧
      (mavenResolveGroup fetch path pkgMap = Except.ok result →
        ∀ p ∈ result, ∃ e ∈ pkgMap, e.2.pkg.version ≠ "" ∧ ∃ g,
          fetch e.2.pkg.name e.2.pkg.version = some g ∧
          ∃ node ∈ g.nodes, node.relation ≠ "SELF" ∧
            p = mavenNodePackage path (mavenNormalizeName node.versionKey.name) node) := by
  intro fetch path pkgMap result
  constructor
  · intro h p hp
    have hres := pypiResolveGroup_ok fetch path pkgMap result h
    subst hres
    exact resolveGroupCore_mem pypiNormalizeName (pypiNodePackage path) fetch pkgMap p hp
  · intro h p hp
    have hres := mavenResolveGroup_ok fetch path pkgMap result h
    subst hres
    exact resolveGroupCore_mem mavenNormalizeName (mavenNodePackage path) fetch pkgMap p hp

/-- Claim C6, witness: a concrete resolution whose output package is traced
back to a non-SELF node. -/
theorem self_node_never_emitted_witness :
    pypiResolveGroup c5Fetch "requirements.txt" c5Group = Except.ok [c5Flask] ∧
    ∃ e ∈ c5Group, e.2.pkg.version ≠ "" ∧ ∃ g,
      c5Fetch e.2.pkg.name e.2.pkg.version = some g ∧
      ∃ node ∈ g.nodes, node.relation ≠ "SELF" ∧
        c5Flask = pypiNodePackage "requirements.txt"
          (pypiNormalizeName node.versionKey.name) node := by
  have hok : pypiResolveGroup c5Fetch "requirements.txt" c5Group = Except.ok [c5Flask] := rfl
  exact ⟨hok, (self_node_never_emitted c5Fetch "requirements.txt" c5Group [c5Flask]).1 hok
    c5Flask (List.mem_singleton.mpr rfl)⟩

/-- Claim C5 (confirmed).  Name normalization is ecosystem-specific: the
PyPI resolver lowercases node names, so "Flask" and "flask" produce the
same dedup key and a graph containing both yields a single emitted package;
the Maven resolver uses the node name verbatim (the identity), so
"com.Foo:Bar" is emitted unchanged, never lowercased. -/
theorem name_normalization_ecosystem_specific :
    pypiNormalizeName "Flask" = pypiNormalizeName "flask" ∧
    (∀ s : String, mavenNormalizeName s = s) ∧
    pypiResolveGroup c5Fetch "requirements.txt" c5Group = Except.ok [c5Flask] ∧
    mavenResolveGroup c5mFetch "pom.xml" c5mGroup = Except.ok [c5mOut] :=
  ⟨by decide, fun _ => rfl, rfl, rfl⟩

/-- Claim C7 (confirmed).  The Maven resolver builds each emitted package's
metadata by splitting the node name on the first colon into GroupID and
ArtifactID, and IsTransitive is true exactly when the node relation is
INDIRECT; in particular the node "org.apache:commons-io" 2.5 INDIRECT
yields GroupID "org.apache", ArtifactID "commons-io", IsTransitive true. -/
theorem maven_metadata_split :
    (∀ (path name : String) (node : DepsDevNode),
      (mavenNodePackage path name node).metadata =
        some { artifactID := (cutFirstColon name).2.1
               groupID := (cutFirstColon name).1
               isTransitive := node.relation == "INDIRECT" }) ∧
    (∀ (path a b : String) (node : DepsDevNode), ':' ∉ a.data →
      (mavenNodePackage path (a ++ ":" ++ b) node).metadata =
        some { artifactID := b, groupID := a
               isTransitive := node.relation == "INDIRECT" }) ∧
    mavenResolveGroup c7Fetch "pom.xml" c7Group = Except.ok [c7Out] := by
  refine ⟨fun path name node => rfl, ?_, rfl⟩
  intro path a b node h
  simp [mavenNodePackage, cutFirstColon_append a b h]

/-- Claim C7, witness: the split theorem applied at "org.apache" and
"commons-io". -/
theorem maven_metadata_split_witness :
    (mavenNodePackage "pom.xml" ("org.apache" ++ ":" ++ "commons-io") c7Node).metadata =
      some { artifactID := "commons-io", groupID := "org.apache", isTransitive := true } := by
  have h := maven_metadata_split.2.1 "pom.xml" "org.apache" "commons-io" c7Node (by decide)
  exact h

/-- Claim C8 (confirmed).  Both Enrich entry points return successfully on
every input (the Go bodies end in `return nil`), and a group whose
resolution fails is skipped, leaving the inventory of that iteration
unchanged, so the pass continues with the next group. -/
theorem enrich_always_returns_ok :
    ∀ (fetch : String → String → Option DepsDevDependencyGraph) (inv : List Package),
      (∃ out, pypiEnrich fetch inv = Except.ok out) ∧
      (∃ out, mavenEnrich fetch inv = Except.ok out) ∧
      (∀ (cur : List Package) (group : String × PkgMap) (err : String),
        pypiResolveGroup fetch group.1 group.2 = Except.error err →
        pypiEnrichStep fetch cur group = cur) ∧
      (∀ (cur : List Package) (group : String × PkgMap) (err : String),
        mavenResolveGroup fetch group.1 group.2 = Except.error err →
        mavenEnrichStep fetch cur group = cur) := by
  intro fetch inv
  refine ⟨⟨pypiRun fetch inv, rfl⟩, ⟨mavenRun fetch inv, rfl⟩, ?_, ?_⟩
  · intro cur group err h
    unfold pypiEnrichStep
    rw [h]
  · intro cur group err h
    unfold mavenEnrichStep
    rw [h]

/-- Claim C8, witness: a concrete failing group is skipped and the run
still returns ok. -/
theorem enrich_always_returns_ok_witness :
    (∃ out, pypiEnrich (fun _ _ => none) exInv = Except.ok out) ∧
    pypiEnrichStep (fun _ _ => none) exInv ("requirements.txt", unpinnedGroup) = exInv := by
  have main := enrich_always_returns_ok (fun _ _ => none) exInv
  exact ⟨main.1, main.2.2.1 exInv ("requirements.txt", unpinnedGroup)
    "no dependencies resolved from deps.dev" rfl⟩

/-- Claim C9 (confirmed).  For both clients, any GetDependencies call that
returns an error (transport failure, non-200 status, malformed body) leaves
the resolution cache unchanged: only a successfully decoded graph is ever
stored. -/
theorem getDependencies_failure_leaves_cache :
    ∀ (decode : String → Option DepsDevDependencyGraph) (net : String → HTTPResult)
      (escape : String → String) (c : DepsDevRESTClientState)
      (c2 : PyPIDepsDevClientState) (name version : String) (e e2 : FetchError),
      ((restGetDependencies decode net escape c name version).1 = Except.error e →
        (restGetDependencies decode net escape c name version).2 = c) ∧
      ((pypiClientGetDependencies decode net escape c2 name version).1 = Except.error e2 →
        (pypiClientGetDependencies decode net escape c2 name version).2 = c2) := by
  intro decode net escape c c2 name version e e2
  constructor
  · intro h
    unfold restGetDependencies at h ⊢
    dsimp only at h ⊢
    split at h
    · simp_all
    · split at h
      · simp_all
      · split at h
        · simp_all
        · split at h
          · simp_all
          · simp_all
  · intro h
    unfold pypiClientGetDependencies at h ⊢
    dsimp only at h ⊢
    split at h
    · simp_all
    · split at h
      · simp_all
      · split at h
        · simp_all
        · split at h
          · simp_all
          · simp_all

/-- Claim C9, witness: a 404 response and a transport failure both leave a
concrete empty cache untouched. -/
theorem getDependencies_failure_leaves_cache_witness :
    (restGetDependencies (fun _ => none) (fun _ => HTTPResult.response 404 "not found")
      (fun s => s) ⟨"https://api.deps.dev", "pypi", []⟩ "requests" "2.31.0").1 =
        Except.error (FetchError.remoteError 404 "not found") ∧
    (restGetDependencies (fun _ => none) (fun _ => HTTPResult.response 404 "not found")
      (fun s => s) ⟨"https://api.deps.dev", "pypi", []⟩ "requests" "2.31.0").2 =
        ⟨"https://api.deps.dev", "pypi", []⟩ ∧
    (pypiClientGetDependencies (fun _ => none) (fun _ => HTTPResult.netErr "refused")
      (fun s => s) ⟨"https://api.deps.dev", []⟩ "requests" "2.31.0").2 =
        ⟨"https://api.deps.dev", []⟩ := by
  refine ⟨rfl, ?_, ?_⟩
  · exact (getDependencies_failure_leaves_cache (fun _ => none)
      (fun _ => HTTPResult.response 404 "not found") (fun s => s)
      ⟨"https://api.deps.dev", "pypi", []⟩ ⟨"https://api.deps.dev", []⟩ "requests" "2.31.0"
      (FetchError.remoteError 404 "not found") (FetchError.networkError "refused")).1 rfl
  · exact (getDependencies_failure_leaves_cache (fun _ => none)
      (fun _ => HTTPResult.netErr "refused") (fun s => s)
      ⟨"https://api.deps.dev", "pypi", []⟩ ⟨"https://api.deps.dev", []⟩ "requests" "2.31.0"
      (FetchError.remoteError 404 "not found") (FetchError.networkError "refused")).2 rfl

/-- Claim C3 (corrected).  When a resolved package's name matches a key of
the group map, both merges update that entry's version in place and the
inventory length does not grow; the Maven merge adds the provenance tag at
most once even when run twice on the same entry, but the PyPI merge appends
its tag unconditionally, so the at-most-once part of the claim holds only
for Maven. -/
theorem merge_identity_amended :
    ∀ (pkgMap : PkgMap) (inv : List Package) (pkg : Package) (ip : PackageWithIndex),
      List.lookup pkg.name pkgMap = some ip →
      ((pypiApplyResolved pkgMap inv [pkg]).length = inv.length ∧
       (mavenApplyResolved pkgMap inv [pkg]).length = inv.length) ∧
      ((pypiApplyResolved pkgMap inv [pkg])[ip.index]?.map Package.version =
         inv[ip.index]?.map (fun _ => pkg.version) ∧
       (mavenApplyResolved pkgMap inv [pkg])[ip.index]?.map Package.version =
         inv[ip.index]?.map (fun _ => pkg.version)) ∧
      (∀ e, inv[ip.index]? = some e → MavenDepsDevEnricherName ∉ e.plugins →
        (mavenApplyResolved pkgMap (mavenApplyResolved pkgMap inv [pkg]) [pkg])[ip.index]?.map
          (fun e2 => e2.plugins.count MavenDepsDevEnricherName) = some 1) := by
  intro pkgMap inv pkg ip h
  have hp : ∀ cur : List Package, pypiApplyResolved pkgMap cur [pkg] =
      updateAt cur ip.index (fun e =>
        { e with version := pkg.version
                 plugins := e.plugins ++ [PyPIDepsDevEnricherName] }) := by
    intro cur
    simp [pypiApplyResolved, pypiMergeOne, h]
  have hm : ∀ cur : List Package, mavenApplyResolved pkgMap cur [pkg] =
      updateAt cur ip.index (fun e =>
        { e with version := pkg.version
                 plugins :=
                   if e.plugins.contains MavenDepsDevEnricherName then e.plugins
                   else e.plugins ++ [MavenDepsDevEnricherName] }) := by
    intro cur
    simp [mavenApplyResolved, mavenMergeOne, h]
  refine ⟨⟨by rw [hp, updateAt_length], by rw [hm, updateAt_length]⟩, ⟨?_, ?_⟩, ?_⟩
  · rw [hp, updateAt_getElem?_self, Option.map_map]
    rfl
  · rw [hm, updateAt_getElem?_self, Option.map_map]
    rfl
  · intro e he hnot
    have hc : e.plugins.contains MavenDepsDevEnricherName = false := by simpa using hnot
    rw [hm, hm, updateAt_getElem?_self, updateAt_getElem?_self, he]
    simp only [Option.map_some']
    rw [hc]
    simp only [Bool.false_eq_true, if_false]
    have hc2 : (e.plugins ++ [MavenDepsDevEnricherName]).contains MavenDepsDevEnricherName
        = true := by simp
    rw [hc2]
    simp [List.count_append, List.count_eq_zero.mpr hnot]

/-- Claim C3, counterexample: running the PyPI merge twice on the same
matched entry leaves the provenance tag twice in its plugin list, refuting
the claimed at-most-once behavior. -/
theorem merge_identity_counterexample :
    ((pypiApplyResolved mGroup (pypiApplyResolved mGroup [mUrllib] [mResolved])
        [mResolved])[0]?.map
      (fun e => e.plugins.count PyPIDepsDevEnricherName)) = some 2 := by decide

/-- Claim C3, witness: the amended theorem applied to a concrete Maven
entry merged twice. -/
theorem merge_identity_witness :
    (mavenApplyResolved mvGroup [mvPkg] [mvResolved]).length = 1 ∧
    ((mavenApplyResolved mvGroup (mavenApplyResolved mvGroup [mvPkg] [mvResolved])
        [mvResolved])[0]?.map
      (fun e2 => e2.plugins.count MavenDepsDevEnricherName)) = some 1 := by
  have main := merge_identity_amended mvGroup [mvPkg] mvResolved ⟨mvPkg, 0⟩ (by decide)
  exact ⟨main.1.2, main.2.2 mvPkg (by decide) (by decide)⟩

lemma mem_listInsertReplace {β : Type} (m : List (String × β)) (k : String) (v : β) :
    ∀ kv ∈ listInsertReplace m k v, kv ∈ m ∨ kv = (k, v) := by
  induction m with
  | nil =>
    intro kv h
    simp [listInsertReplace] at h
    exact Or.inr h
  | cons kv0 rest ih =>
    obtain ⟨k0, v0⟩ := kv0
    intro kv h
    unfold listInsertReplace at h
    split at h
    · rename_i hk
      rcases List.mem_cons.mp h with h2 | h2
      · right
        rw [h2, beq_iff_eq.mp hk]
      · exact Or.inl (List.mem_cons_of_mem _ h2)
    · rcases List.mem_cons.mp h with h2 | h2
      · exact Or.inl (h2 ▸ List.mem_cons_self _ _)
      · rcases ih kv h2 with h3 | h3
        · exact Or.inl (List.mem_cons_of_mem _ h3)
        · exact Or.inr h3

lemma mem_groupsInsert (groups : List (String × PkgMap)) (path key : String)
    (v : PackageWithIndex) :
    ∀ pm ∈ groupsInsert groups path key v, ∀ kv ∈ pm.2,
      (∃ pm0 ∈ groups, kv ∈ pm0.2) ∨ kv = (key, v) := by
  induction groups with
  | nil =>
    intro pm hpm kv hkv
    simp [groupsInsert] at hpm
    subst hpm
    simp at hkv
    exact Or.inr hkv
  | cons g0 rest ih =>
    obtain ⟨p0, m0⟩ := g0
    intro pm hpm kv hkv
    unfold groupsInsert at hpm
    split at hpm
    · rcases List.mem_cons.mp hpm with h2 | h2
      · subst h2
        rcases mem_listInsertReplace m0 key v kv hkv with h3 | h3
        · exact Or.inl ⟨(p0, m0), List.mem_cons_self _ _, h3⟩
        · exact Or.inr h3
      · exact Or.inl ⟨pm, List.mem_cons_of_mem _ h2, hkv⟩
    · rcases List.mem_cons.mp hpm with h2 | h2
      · subst h2
        exact Or.inl ⟨(p0, m0), List.mem_cons_self _ _, hkv⟩
      · rcases ih pm h2 kv hkv with ⟨pm0, h3, h4⟩ | h3
        · exact Or.inl ⟨pm0, List.mem_cons_of_mem _ h3, h4⟩
        · exact Or.inr h3

lemma pypiGroupAux_wf (inv : List Package) :
    ∀ (rest : List Package) (n : Nat) (acc : List (String × PkgMap)),
      (∀ j : Nat, rest[j]? = inv[n + j]?) →
      (∀ pm ∈ acc, ∀ kv ∈ pm.2, inv[kv.2.index]? = some kv.2.pkg ∧ kv.1 = kv.2.pkg.name) →
      ∀ pm ∈ pypiGroupAux n rest acc, ∀ kv ∈ pm.2,
        inv[kv.2.index]? = some kv.2.pkg ∧ kv.1 = kv.2.pkg.name := by
  intro rest
  induction rest with
  | nil => exact fun n acc hj hacc => hacc
  | cons pkg rest ih =>
    intro n acc hj hacc
    unfold pypiGroupAux
    apply ih (n + 1)
    · intro j
      have := hj (j + 1)
      simpa [Nat.add_assoc, Nat.add_comm 1 j] using this
    · split
      · rename_i hplug
        cases hloc : pkg.locations with
        | nil => exact hacc
        | cons path rest2 =>
          intro pm hpm kv hkv
          rcases mem_groupsInsert acc path pkg.name ⟨pkg, n⟩ pm hpm kv hkv with ⟨pm0, h3, h4⟩ | h3
          · exact hacc pm0 h3 kv h4
          · subst h3
            refine ⟨?_, rfl⟩
            have h0 := hj 0
            simpa using h0.symm
      · exact hacc

lemma pypiGroup_wf (inv : List Package) :
    ∀ pm ∈ pypiGroup inv, ∀ kv ∈ pm.2,
      inv[kv.2.index]? = some kv.2.pkg ∧ kv.1 = kv.2.pkg.name := by
  apply pypiGroupAux_wf inv inv 0 []
  · intro j
    simp
  · intro pm hpm
    simp at hpm

lemma pypiApplyResolved_preserve (g : PkgMap) (pkgs : List Package) :
    ∀ (cur : List Package) (i : Nat),
      (∀ p ∈ pkgs, ∀ ip, List.lookup p.name g = some ip → ip.index ≠ i) →
      i < cur.length →
      (pypiApplyResolved g cur pkgs)[i]? = cur[i]? ∧
      cur.length ≤ (pypiApplyResolved g cur pkgs).length := by
  induction pkgs with
  | nil => exact fun cur i h hi => ⟨rfl, Nat.le_refl _⟩
  | cons p ps ih =>
    intro cur i h hi
    have hfold : pypiApplyResolved g cur (p :: ps) =
        pypiApplyResolved g (pypiMergeOne g cur p) ps := rfl
    rw [hfold]
    have hrec := ih (pypiMergeOne g cur p) i (fun q hq => h q (List.mem_cons_of_mem _ hq))
    cases hl : List.lookup p.name g with
    | some ip =>
      have hne := h p (List.mem_cons_self _ _) ip hl
      have hone : pypiMergeOne g cur p = updateAt cur ip.index (fun e =>
          { e with version := p.version
                   plugins := e.plugins ++ [PyPIDepsDevEnricherName] }) := by
        simp [pypiMergeOne, hl]
      have hlen : (pypiMergeOne g cur p).length = cur.length := by
        rw [hone, updateAt_length]
      obtain ⟨h1, h2⟩ := hrec (by rw [hlen]; exact hi)
      refine ⟨?_, ?_⟩
      · rw [h1, hone, updateAt_getElem?_ne cur ip.index i _ (fun hh => hne hh.symm)]
      · rw [← hlen]
        exact h2
    | none =>
      have hone : pypiMergeOne g cur p = cur ++ [p] := by
        simp [pypiMergeOne, hl]
      have hlen : (pypiMergeOne g cur p).length = cur.length + 1 := by
        simp [hone]
      obtain ⟨h1, h2⟩ := hrec (by rw [hlen]; exact Nat.lt_succ_of_lt hi)
      refine ⟨?_, ?_⟩
      · rw [h1, hone, List.getElem?_append, if_pos hi]
      · calc cur.length ≤ (pypiMergeOne g cur p).length := by rw [hlen]; exact Nat.le_succ _
          _ ≤ _ := h2

lemma pypiRun_preserve_aux (fetch : String → String → Option DepsDevDependencyGraph)
    (inv : List Package) (i : Nat) (e : Package)
    (he : inv[i]? = some e) (hup : containsUpperAscii e.name = true) :
    ∀ (groups : List (String × PkgMap)),
      (∀ pm ∈ groups, ∀ kv ∈ pm.2,
        inv[kv.2.index]? = some kv.2.pkg ∧ kv.1 = kv.2.pkg.name) →
      ∀ cur, cur[i]? = some e → i < cur.length →
        (groups.foldl (pypiEnrichStep fetch) cur)[i]? = some e := by
  intro groups
  induction groups with
  | nil => exact fun h cur hc hi => hc
  | cons pm gs ih =>
    intro h cur hc hi
    rw [List.foldl_cons]
    have hstep : (pypiEnrichStep fetch cur pm)[i]? = some e ∧
        i < (pypiEnrichStep fetch cur pm).length := by
      unfold pypiEnrichStep
      cases hres : pypiResolveGroup fetch pm.1 pm.2 with
      | error err => exact ⟨hc, hi⟩
      | ok pkgs =>
        have hpkgs := pypiResolveGroup_ok fetch pm.1 pm.2 pkgs hres
        have hcond : ∀ p ∈ pkgs, ∀ ip, List.lookup p.name pm.2 = some ip → ip.index ≠ i := by
          intro p hp ip hl hix
          have horig := resolveGroupCore_mem pypiNormalizeName (pypiNodePackage pm.1)
            fetch pm.2 p (hpkgs ▸ hp)
          rcases horig with ⟨e2, hm2, hver2, g2, hg2, node, hn, hr, hpe⟩
          have hlow : containsUpperAscii p.name = false := by
            rw [hpe]
            exact containsUpper_goToLower _
          have hkv := h pm (List.mem_cons_self _ _) (p.name, ip) (lookup_mem _ _ _ hl)
          rw [hix, he] at hkv
          have hpkge : ip.pkg = e := by
            have := hkv.1
            simpa using this.symm
          have hname : p.name = e.name := by
            have := hkv.2
            rw [hpkge] at this
            exact this
          rw [hname, hup] at hlow
          cases hlow
        have hpres := pypiApplyResolved_preserve pm.2 pkgs cur i hcond hi
        exact ⟨by rw [hpres.1]; exact hc, Nat.lt_of_lt_of_le hi hpres.2⟩
    exact ih (fun pm0 h0 => h pm0 (List.mem_cons_of_mem _ h0)) _ hstep.1 hstep.2

/-- Claim C10 (confirmed).  The PyPI merge matches resolver output against
the group map by exact string equality between the lowercased resolved name
and the stored inventory name: an inventory entry whose stored name
contains an ASCII uppercase letter is never updated by an Enrich run, and a
resolved package whose name is not a key of the group map is appended to
the inventory as a new entry. -/
theorem pypi_merge_exact_string_match :
    ∀ (fetch : String → String → Option DepsDevDependencyGraph) (inv : List Package),
      (∀ (i : Nat) (e : Package), inv[i]? = some e → containsUpperAscii e.name = true →
        (pypiRun fetch inv)[i]? = some e) ∧
      (∀ (g : PkgMap) (cur : List Package) (p : Package),
        List.lookup p.name g = none → pypiApplyResolved g cur [p] = cur ++ [p]) := by
  intro fetch inv
  constructor
  · intro i e he hup
    have hi : i < inv.length := by
      by_contra hge
      rw [List.getElem?_eq_none (Nat.le_of_not_lt hge)] at he
      cases he
    exact pypiRun_preserve_aux fetch inv i e he hup (pypiGroup inv) (pypiGroup_wf inv) inv he hi
  · intro g cur p hl
    simp [pypiApplyResolved, pypiMergeOne, hl]

/-- Claim C10, witness: an inventory entry stored as "Flask" survives the
run unchanged while the lowercased resolved package "flask" is appended as
a new entry. -/
theorem pypi_merge_exact_string_match_witness :
    pypiRun flaskFetch [flaskUpper] = [flaskUpper, flaskLower] ∧
    (pypiRun flaskFetch [flaskUpper])[0]? = some flaskUpper ∧
    pypiApplyResolved [("Flask", ⟨flaskUpper, 0⟩)] [flaskUpper] [flaskLower] =
      [flaskUpper, flaskLower] := by
  refine ⟨by decide, ?_, ?_⟩
  · exact (pypi_merge_exact_string_match flaskFetch [flaskUpper]).1 0 flaskUpper rfl (by decide)
  · exact (pypi_merge_exact_string_match flaskFetch [flaskUpper]).2
      [("Flask", ⟨flaskUpper, 0⟩)] [flaskUpper] flaskLower (by decide)


lemma pypiApplyResolved_no_match (g : PkgMap) (pkgs : List Package) :
    ∀ cur, (∀ p ∈ pkgs, List.lookup p.name g = none) →
      pypiApplyResolved g cur pkgs = cur ++ pkgs := by
  induction pkgs with
  | nil =>
    intro cur h
    simp [pypiApplyResolved]
  | cons p ps ih =>
    intro cur h
    have hfold : pypiApplyResolved g cur (p :: ps) =
        pypiApplyResolved g (pypiMergeOne g cur p) ps := rfl
    have hone : pypiMergeOne g cur p = cur ++ [p] := by
      simp [pypiMergeOne, h p (List.mem_cons_self _ _)]
    rw [hfold, hone, ih _ (fun q hq => h q (List.mem_cons_of_mem _ hq))]
    simp

lemma pypiGroupOut_plugins (fetch : String → String → Option DepsDevDependencyGraph)
    (pm : String × PkgMap) :
    ∀ p ∈ pypiGroupOut fetch pm, p.plugins = [PyPIDepsDevEnricherName] := by
  intro p hp
  unfold pypiGroupOut at hp
  cases hres : pypiResolveGroup fetch pm.1 pm.2 with
  | error err =>
    rw [hres] at hp
    cases hp
  | ok pkgs =>
    rw [hres] at hp
    have hsub := pypiResolveGroup_ok fetch pm.1 pm.2 pkgs hres
    rcases resolveGroupCore_mem pypiNormalizeName (pypiNodePackage pm.1) fetch pm.2 p
      (hsub ▸ hp) with ⟨e2, hm2, hver2, g2, hg2, node, hn, hr, hpe⟩
    rw [hpe]
    rfl

lemma pypiAppends_plugins (fetch : String → String → Option DepsDevDependencyGraph)
    (inv : List Package) :
    ∀ p ∈ pypiAppends fetch inv,
      p.plugins.contains requirementsExtractorName = false := by
  intro p hp
  unfold pypiAppends at hp
  rw [List.mem_flatten] at hp
  rcases hp with ⟨l2, hl2, hpl⟩
  rcases List.mem_map.mp hl2 with ⟨pm, hpm, heq⟩
  subst heq
  rw [pypiGroupOut_plugins fetch pm p hpl]
  decide

lemma pypiFold_append (fetch : String → String → Option DepsDevDependencyGraph)
    (groups : List (String × PkgMap)) :
    ∀ cur, (∀ pm ∈ groups, ∀ p ∈ pypiGroupOut fetch pm, List.lookup p.name pm.2 = none) →
      groups.foldl (pypiEnrichStep fetch) cur =
        cur ++ (groups.map (pypiGroupOut fetch)).flatten := by
  induction groups with
  | nil =>
    intro cur h
    simp
  | cons pm gs ih =>
    intro cur h
    rw [List.foldl_cons, List.map_cons, List.flatten_cons]
    have hstep : pypiEnrichStep fetch cur pm = cur ++ pypiGroupOut fetch pm := by
      cases hres : pypiResolveGroup fetch pm.1 pm.2 with
      | error err =>
        unfold pypiEnrichStep pypiGroupOut
        rw [hres]
        simp
      | ok pkgs =>
        have hout : pypiGroupOut fetch pm = pkgs := by
          unfold pypiGroupOut
          rw [hres]
        unfold pypiEnrichStep
        rw [hres, hout]
        exact pypiApplyResolved_no_match pm.2 pkgs cur
          (fun p hp => h pm (List.mem_cons_self _ _) p (by rw [hout]; exact hp))
    rw [hstep, ih _ (fun pm0 h0 => h pm0 (List.mem_cons_of_mem _ h0)), List.append_assoc]

lemma pypiGroupAux_append (l1 l2 : List Package) :
    ∀ n acc, pypiGroupAux n (l1 ++ l2) acc =
      pypiGroupAux (n + l1.length) l2 (pypiGroupAux n l1 acc) := by
  induction l1 with
  | nil =>
    intro n acc
    simp [pypiGroupAux]
  | cons pkg rest ih =>
    intro n acc
    have hstep : ∀ (X : List Package),
        pypiGroupAux n (pkg :: X) acc = pypiGroupAux (n + 1) X
          (if pkg.plugins.contains requirementsExtractorName then
            match pkg.locations with
            | [] => acc
            | path :: _ => groupsInsert acc path pkg.name ⟨pkg, n⟩
          else acc) := fun X => rfl
    rw [List.cons_append, hstep (rest ++ l2), hstep rest, ih (n + 1)]
    have harith : n + 1 + rest.length = n + (pkg :: rest).length := by
      simp only [List.length_cons]
      omega
    rw [harith]

lemma pypiGroupAux_filtered (l : List Package)
    (hl : ∀ p ∈ l, p.plugins.contains requirementsExtractorName = false) :
    ∀ n acc, pypiGroupAux n l acc = acc := by
  induction l with
  | nil =>
    intro n acc
    rfl
  | cons pkg rest ih =>
    intro n acc
    unfold pypiGroupAux
    rw [if_neg (by rw [hl pkg (List.mem_cons_self _ _)]; exact Bool.false_ne_true)]
    exact ih (fun q hq => hl q (List.mem_cons_of_mem _ hq)) (n + 1) acc

lemma pypiGroup_append_filtered (inv extra : List Package)
    (hex : ∀ p ∈ extra, p.plugins.contains requirementsExtractorName = false) :
    pypiGroup (inv ++ extra) = pypiGroup inv := by
  unfold pypiGroup
  rw [pypiGroupAux_append inv extra 0 []]
  exact pypiGroupAux_filtered extra hex _ _

/-- Claim C1 (corrected).  Running Enrich is not idempotent: whenever a
run only appends (no resolved name matches a key of its group map), the
run appends exactly the per-group resolver outputs, and a second run
appends them again, because appended transitive entries carry only the
enricher's own plugin tag and are therefore excluded from the second run's
grouping; the final package set after two runs differs from one run
whenever the first run appended anything. -/
theorem enrich_twice_reappends :
    ∀ (fetch : String → String → Option DepsDevDependencyGraph) (inv : List Package),
      (∀ pm ∈ pypiGroup inv, ∀ p ∈ pypiGroupOut fetch pm, List.lookup p.name pm.2 = none) →
      pypiRun fetch inv = inv ++ pypiAppends fetch inv ∧
      pypiRun fetch (pypiRun fetch inv) =
        inv ++ pypiAppends fetch inv ++ pypiAppends fetch inv := by
  intro fetch inv h
  have h1 : pypiRun fetch inv = inv ++ pypiAppends fetch inv := by
    unfold pypiRun pypiAppends
    exact pypiFold_append fetch (pypiGroup inv) inv h
  refine ⟨h1, ?_⟩
  have hgroups : pypiGroup (inv ++ pypiAppends fetch inv) = pypiGroup inv :=
    pypiGroup_append_filtered inv _ (pypiAppends_plugins fetch inv)
  rw [h1]
  unfold pypiRun
  rw [hgroups, pypiFold_append fetch (pypiGroup inv) (inv ++ pypiAppends fetch inv) h]
  rfl

/-- Claim C1, counterexample: a single pinned direct dependency whose
graph contributes one transitive package; the second Enrich run appends a
duplicate of that transitive entry, so the final package set differs from
the single run's. -/
theorem enrich_idempotence_counterexample :
    pypiRun exFetch (pypiRun exFetch exInv) ≠ pypiRun exFetch exInv ∧
    (pypiRun exFetch (pypiRun exFetch exInv)).count exCertifi = 2 ∧
    (pypiRun exFetch exInv).count exCertifi = 1 := by
  refine ⟨by decide, by decide, by decide⟩

/-- Claim C1, witness: the amended theorem applied to the concrete
requests/certifi inventory. -/
theorem enrich_twice_reappends_witness :
    pypiRun exFetch exInv = exInv ++ pypiAppends exFetch exInv ∧
    pypiRun exFetch (pypiRun exFetch exInv) =
      exInv ++ pypiAppends exFetch exInv ++ pypiAppends exFetch exInv :=
  enrich_twice_reappends exFetch exInv (by decide)
